import Mathlib

/-!
Verification development for the AssetBot asset-acquisition agent
(`src/assetbot.py`).  The Python source is shallowly embedded below:

* the link-classifier regular expression `ENVATO_ITEM_RE`
  (`https?://(?:www\.)?elements\.envato\.com/[^\s/]+-([A-Z0-9]{6,})`,
  case-insensitive, used via `re.search`) is compiled by hand into an
  executable backtracking matcher over `List Char`;
* the probe-response scan `"(https://[^\"]+envatousercontent\.com/[^\"]+)"`
  is likewise embedded as `findSignedUrl`;
* `RateLimiter.allow` is embedded over integer timestamps (the Python code
  uses float seconds from `time.time()`; only ordering and differences of
  timestamps are ever used, so a linearly ordered time domain suffices);
* `envato_get_item_uuid` / `envato_download` are embedded relative to a
  network oracle (`Oracle`) supplying the metadata response, one probe
  response per item type, and the content response for a signed URL;
* `handle_message` is embedded as a pure function from an inbound update to
  the list of performed effects, the new rate-limiter state, and the final
  state of the destination file.

One transcription note: the committed file is the body of a shell heredoc
(the stray `PY` terminator survives on line 217) and the line
`if r.status_code != 200:` (line 125) lost its leading indentation in that
transcription.  The unique indentation that makes the file parse — the one
matching the indentation of its own `continue` body on line 126 — places the
check inside the probe loop, and that is what `probeLoop` below embeds.
-/

/-! ### Character classes and case folding (ASCII fragment used by the patterns) -/

/-- Python `\s` restricted to the ASCII whitespace characters
(space, tab, newline, carriage return, vertical tab, form feed). -/
def isPySpace (c : Char) : Bool :=
  c.toNat = 32 ∨ (9 ≤ c.toNat ∧ c.toNat ≤ 13)

/-- The character class `[^\s/]` of `ENVATO_ITEM_RE`. -/
def segChar (c : Char) : Bool :=
  ¬ (isPySpace c = true) ∧ c.toNat ≠ 47

/-- The character class `[A-Z0-9]` under `re.I`: ASCII letters of either
case, or digits. -/
def idChar (c : Char) : Bool :=
  (65 ≤ c.toNat ∧ c.toNat ≤ 90) ∨ (97 ≤ c.toNat ∧ c.toNat ≤ 122) ∨
    (48 ≤ c.toNat ∧ c.toNat ≤ 57)

/-- An uppercase ASCII letter or a digit (the alphabet of normalized
item identifiers). -/
def isUpperAlnum (c : Char) : Bool :=
  (65 ≤ c.toNat ∧ c.toNat ≤ 90) ∨ (48 ≤ c.toNat ∧ c.toNat ≤ 57)

/-- ASCII lowercasing, the folding used by `re.I` on the pattern's ASCII
literals. -/
def lowerA (c : Char) : Char :=
  if 65 ≤ c.toNat ∧ c.toNat ≤ 90 then Char.ofNat (c.toNat + 32) else c

/-- ASCII uppercasing: `str.upper()` on the extracted identifier, whose
characters are ASCII by construction. -/
def upperA (c : Char) : Char :=
  if 97 ≤ c.toNat ∧ c.toNat ≤ 122 then Char.ofNat (c.toNat - 32) else c

/-- Case-insensitive character comparison. -/
def ciEq (a b : Char) : Bool := lowerA a = lowerA b

/-! ### Literal consumption -/

/-- Consume the literal `p` (case-insensitively) from the front of `s`,
returning the remainder. -/
def consumeCI : List Char → List Char → Option (List Char)
  | [], s => some s
  | _ :: _, [] => none
  | p :: ps, c :: cs => if ciEq p c then consumeCI ps cs else none

/-- Consume the literal `p` (case-sensitively) from the front of `s`,
returning the remainder. -/
def consumeLit : List Char → List Char → Option (List Char)
  | [], s => some s
  | _ :: _, [] => none
  | p :: ps, c :: cs => if p = c then consumeLit ps cs else none

/-- `p` matches `t` case-insensitively, consuming all of `t`. -/
def matchesCI : List Char → List Char → Bool
  | [], [] => true
  | p :: ps, c :: cs => ciEq p c && matchesCI ps cs
  | _, _ => false

/-- Length of the maximal front run of characters satisfying `p`. -/
def runLen (p : Char → Bool) : List Char → Nat
  | [] => 0
  | c :: cs => if p c then runLen p cs + 1 else 0

/-! ### The `ENVATO_ITEM_RE` matcher

`https?://(?:www\.)?elements\.envato\.com/` expands to four literal
alternatives; they are listed in the engine's greedy preference order
(`s` taken before dropped, `www.` taken before dropped), although at any
given position at most one of the four can match. -/

def urlPrefixes : List (List Char) :=
  ["https://www.elements.envato.com/".toList,
   "https://elements.envato.com/".toList,
   "http://www.elements.envato.com/".toList,
   "http://elements.envato.com/".toList]

/-- Try each prefix literal in order; on success return its length and the
remainder of the input. -/
def tryPrefixesAux : List (List Char) → List Char → Option (Nat × List Char)
  | [], _ => none
  | p :: ps, s =>
    match consumeCI p s with
    | some r => some (p.length, r)
    | none => tryPrefixesAux ps s

def tryPrefixes (s : List Char) : Option (Nat × List Char) :=
  tryPrefixesAux urlPrefixes s

/-- Attempt `-([A-Z0-9]{6,})` with the hyphen at index `idx` of `s`:
the character there must be `-` and at least six id-characters must
follow; the captured group is the maximal id-character run. -/
def groupAt (s : List Char) (idx : Nat) : Option (List Char) :=
  if s.get? idx = some '-' then
    let t := s.drop (idx + 1)
    let k := runLen idChar t
    if 6 ≤ k then some (t.take k) else none
  else none

/-- Backtracking search for the hyphen of `[^\s/]+-([A-Z0-9]{6,})`:
the greedy `[^\s/]+` means the engine commits to the rightmost viable
hyphen, so indices are tried from `i` down to `1` (at least one segment
character must precede the hyphen). -/
def searchHyphenDown (s : List Char) : Nat → Option (Nat × List Char)
  | 0 => none
  | i + 1 =>
    match groupAt s (i + 1) with
    | some g => some (i + 1, g)
    | none => searchHyphenDown s i

/-- Match `[^\s/]+-([A-Z0-9]{6,})` at the front of `s`; returns the hyphen
index and the captured group.  Hyphen candidates live strictly inside the
maximal `[^\s/]` run. -/
def matchSeg (s : List Char) : Option (Nat × List Char) :=
  match runLen segChar s with
  | 0 => none
  | r + 1 => searchHyphenDown s r

/-- Match the whole pattern at the front of `s`; returns
(whole match, captured group) — `group(0)` and `group(1)`. -/
def matchAt (s : List Char) : Option (List Char × List Char) :=
  match tryPrefixes s with
  | none => none
  | some (n, r) =>
    match matchSeg r with
    | none => none
    | some (idx, id) => some (s.take n ++ r.take idx ++ '-' :: id, id)

/-- `re.search`: scan start positions left to right, returning the
leftmost match. -/
def searchFrom : List Char → Option (List Char × List Char)
  | [] => none
  | c :: cs =>
    match matchAt (c :: cs) with
    | some m => some m
    | none => searchFrom cs

/-- `ENVATO_ITEM_RE.search(text)`, returning `(group(0), group(1))`. -/
def envatoSearch (text : String) : Option (String × String) :=
  (searchFrom text.toList).map (fun m => (String.mk m.1, String.mk m.2))

/-- Lines 89–92 of the source: `ENVATO_ITEM_RE.search(item_url)` followed by
`m.group(1).upper()`. -/
def extractItemId (text : String) : Option String :=
  (searchFrom text.toList).map (fun m => String.mk (m.2.map upperA))

/-! ### The `FREEPIK_RE` matcher

`https?://(?:www\.)?freepik\.com/[^\s]+` (case-insensitive); only its
truthiness is ever used, so a Boolean search suffices. -/

def freepikPrefixes : List (List Char) :=
  ["https://www.freepik.com/".toList,
   "https://freepik.com/".toList,
   "http://www.freepik.com/".toList,
   "http://freepik.com/".toList]

/-- Match `FREEPIK_RE` at the front of `s`: one of the prefix literals
followed by at least one non-whitespace character. -/
def freepikAt (s : List Char) : Bool :=
  match tryPrefixesAux freepikPrefixes s with
  | some (_, c :: _) => ¬ (isPySpace c = true)
  | some (_, []) => false
  | none => false

/-- `FREEPIK_RE.search(text)` as a Boolean. -/
def freepikSearch : List Char → Bool
  | [] => false
  | c :: cs => freepikAt (c :: cs) || freepikSearch cs

/-! ### The probe-response scan

Line 127 of the source:
`re.search(r'"(https://[^\"]+envatousercontent\.com/[^\"]+)"', r.text)`.
A match sits between two double quotes; the quote-free span must begin
with the literal `https://`, contain `envatousercontent.com/` preceded by
at least one character and followed by at least one character, and group 1
is the whole span. -/

def signedHostLit : List Char := "envatousercontent.com/".toList

/-- Does `lit` occur inside `R` at an index `j` with `1 ≤ j` and at least
one character of `R` after the occurrence?  (The two `[^\"]+` of the
pattern must each consume at least one character.) -/
def hasInnerLit (lit R : List Char) : Bool :=
  (List.range R.length).any fun j =>
    decide (1 ≤ j) && decide ((R.drop j).take lit.length = lit) &&
      decide (j + lit.length + 1 ≤ R.length)

/-- Attempt the signed-URL pattern just after an opening quote: consume
`https://`, take the quote-free span, require a closing quote and an inner
occurrence of the host literal; group 1 is `https://` plus the span. -/
def trySignedAt (s : List Char) : Option (List Char) :=
  match consumeLit "https://".toList s with
  | none => none
  | some rest =>
    let R := rest.takeWhile (fun c => ¬ (c = '"'))
    if (rest.drop R.length).head? = some '"' ∧ hasInnerLit signedHostLit R then
      some ("https://".toList ++ R)
    else none

/-- `re.search` for the signed-URL pattern: scan for an opening quote left
to right and return group 1 of the leftmost match. -/
def findSignedUrl : List Char → Option (List Char)
  | [] => none
  | c :: cs =>
    if c = '"' then
      match trySignedAt cs with
      | some g => some g
      | none => findSignedUrl cs
    else findSignedUrl cs

/-! ### The rate limiter (`RateLimiter.allow`, lines 63–72)

Timestamps are embedded as integers: the Python code uses float seconds
and only ever forms differences and compares them with the window, so any
linearly ordered additive time domain gives the same control flow.  The
`hits` dict (with `.get(key, [])` defaulting) is embedded as a total map
from keys to timestamp lists, initially constantly `[]`. -/

abbrev RLKey := ℤ × ℤ

namespace RateLimiter

/-- One call of `RateLimiter.allow(chat_id, user_id)` at time `now`:
prune the key's timestamps to those with `now - t < window_sec`; if at
least `max_hits` remain, store the pruned list and deny; otherwise append
`now`, store, and grant. -/
def allow (window_sec : ℤ) (max_hits : ℕ) (hits : RLKey → List ℤ)
    (chat_id user_id now : ℤ) : Bool × (RLKey → List ℤ) :=
  let key : RLKey := (chat_id, user_id)
  let arr := (hits key).filter (fun t => now - t < window_sec)
  if max_hits ≤ arr.length then
    (false, fun k => if k = key then arr else hits k)
  else
    let arr' := arr ++ [now]
    (true, fun k => if k = key then arr' else hits k)

end RateLimiter

/-- The rate-limiter states reachable from the empty table by any sequence
of `allow` calls with arbitrary keys and times. -/
inductive Reach (W : ℤ) (N : ℕ) : (RLKey → List ℤ) → Prop where
  | init : Reach W N (fun _ => [])
  | step (h : RLKey → List ℤ) (cid uid now : ℤ) :
      Reach W N h → Reach W N (RateLimiter.allow W N h cid uid now).2

/-! ### The acquisition orchestrator (`envato_get_item_uuid`, `envato_download`) -/

/-- Failure taxonomy of an acquisition attempt, one value per distinct
exception path of the source. -/
inductive DlError where
  /-- `ValueError("Could not extract Envato item id from URL")`, line 91. -/
  | invalidUrl
  /-- An exception inside `envato_get_item_uuid`: `raise_for_status` on the
  metadata response or a missing `itemUuid` field, lines 84–85. -/
  | identifierResolutionFailed
  /-- `RuntimeError("Envato: could not obtain signed download URL …")`, line 133. -/
  | probeExhausted
  /-- `resp.raise_for_status()` on the signed-content response, line 136. -/
  | transferFailed
  /-- `RuntimeError("File too large …")`, line 149. -/
  | sizeLimitExceeded
deriving DecidableEq, Repr

/-- The metadata response for `GET …/items/{item_id}.json`: its status and
the nested `["data"]["attributes"]["itemUuid"]` field when present. -/
structure MetaResponse where
  status : ℕ
  itemUuid : Option String
deriving DecidableEq, Repr

/-- A probe response: status code and raw body text. -/
structure HttpResponse where
  status : ℕ
  body : String
deriving DecidableEq, Repr

/-- The signed-content response: status and the chunk sequence yielded by
`resp.iter_content(1024 * 256)` (chunks of bytes; sizes are bounded by the
chunk size in reality but the bound is irrelevant to the embedding). -/
structure ContentResponse where
  status : ℕ
  chunks : List (List ℕ)
deriving DecidableEq, Repr

/-- The network oracle: what the origin answers during one acquisition
attempt.  Probe responses are keyed by the item type, the only component
of the probe request that varies inside the loop. -/
structure Oracle where
  meta : MetaResponse
  probe : String → HttpResponse
  content : String → ContentResponse

/-- `envato_get_item_uuid` (lines 81–85) relative to the oracle's metadata
response: `raise_for_status` raises exactly on status ≥ 400, and a body
without the nested field raises a lookup error; both surface as
`identifierResolutionFailed`. -/
def envato_get_item_uuid (r : MetaResponse) : Except DlError String :=
  if 400 ≤ r.status then Except.error DlError.identifierResolutionFailed
  else
    match r.itemUuid with
    | some u => Except.ok u
    | none => Except.error DlError.identifierResolutionFailed

/-- The fixed ordered probe candidate list (lines 95–109). -/
def candidate_types : List String :=
  ["video-templates", "wordpress", "graphics", "presentation-templates",
   "fonts", "photos", "stock-video", "music", "sound-effects", "add-ons",
   "web-templates", "cms-templates", "3d"]

/-- One probe request as issued by the loop body (lines 121–124): the item
type, the referer built from it, and the form payload. -/
structure ProbeRequest where
  itemType : String
  referer : String
  payload : String
deriving DecidableEq, Repr

def mkProbeRequest (item_uuid item_type : String) : ProbeRequest :=
  { itemType := item_type
    referer := "https://app.envato.com/" ++ item_type ++ "/" ++ item_uuid
    payload := "itemUuid=" ++ item_uuid ++ "&itemType=" ++ item_type }

/-- The probe loop (lines 119–130, with line 125's indentation restored as
described at the top of this file): issue one request per candidate in
order; a response with status other than 200 means continue to the next
candidate; a 200 response is scanned for an embedded signed URL and a hit
stops the loop.  Returns the issued requests in order and the signed URL
if one was found. -/
def probeLoop (probe : String → HttpResponse) (item_uuid : String) :
    List String → List ProbeRequest × Option String
  | [] => ([], none)
  | t :: ts =>
    let req := mkProbeRequest item_uuid t
    let r := probe t
    if r.status ≠ 200 then
      let rec' := probeLoop probe item_uuid ts
      (req :: rec'.1, rec'.2)
    else
      match findSignedUrl r.body.toList with
      | some url => ([req], some (String.mk url))
      | none =>
        let rec' := probeLoop probe item_uuid ts
        (req :: rec'.1, rec'.2)

/-- The streaming write loop (lines 143–150): for each chunk, skip it when
empty, add its length to the running total, abort with the size error
before writing whenever the total exceeds the limit, otherwise append the
chunk to the file.  Returns the outcome (final total on success) together
with the file contents at exit. -/
def writeLoop (limit : ℕ) : List (List ℕ) → ℕ → List ℕ → Except DlError ℕ × List ℕ
  | [], total, written => (Except.ok total, written)
  | c :: cs, total, written =>
    if c.isEmpty then writeLoop limit cs total written
    else
      let total' := total + c.length
      if limit < total' then (Except.error DlError.sizeLimitExceeded, written)
      else writeLoop limit cs total' (written ++ c)

/-- Instrumentation of `writeLoop`: the sequence of file contents after each
successful chunk write, in order.  Same control flow, same tests. -/
def writeStates (limit : ℕ) : List (List ℕ) → ℕ → List ℕ → List (List ℕ)
  | [], _, _ => []
  | c :: cs, total, written =>
    if c.isEmpty then writeStates limit cs total written
    else
      let total' := total + c.length
      if limit < total' then []
      else (written ++ c) :: writeStates limit cs total' (written ++ c)

/-- The observable outcome of one `envato_download` call: whether the
metadata endpoint was queried (and for which item id), the probe requests
issued in order, the signed URLs fetched, the returned value or raised
error, and the final contents of the destination file (`none` when no file
was ever created). -/
structure DlOutcome where
  metaRequest : Option String
  probes : List ProbeRequest
  contentGets : List String
  result : Except DlError (String × String)
  file : Option (List ℕ)

/-- `envato_download(item_url, cookies_path, max_mb)` (lines 88–152)
relative to a network oracle.  The cookie jar contents do not influence
any branch of the embedded control flow and are omitted. -/
def envato_download (o : Oracle) (item_url : String) (max_mb : ℕ) : DlOutcome :=
  match searchFrom item_url.toList with
  | none =>
    { metaRequest := none, probes := [], contentGets := []
      result := Except.error DlError.invalidUrl, file := none }
  | some (_, g1) =>
    let item_id := String.mk (g1.map upperA)
    match envato_get_item_uuid o.meta with
    | Except.error e =>
      { metaRequest := some item_id, probes := [], contentGets := []
        result := Except.error e, file := none }
    | Except.ok item_uuid =>
      let pr := probeLoop o.probe item_uuid candidate_types
      match pr.2 with
      | none =>
        { metaRequest := some item_id, probes := pr.1, contentGets := []
          result := Except.error DlError.probeExhausted, file := none }
      | some signed_url =>
        let resp := o.content signed_url
        if 400 ≤ resp.status then
          { metaRequest := some item_id, probes := pr.1
            contentGets := [signed_url]
            result := Except.error DlError.transferFailed, file := none }
        else
          let filename := "envato-" ++ item_id ++ ".zip"
          let out := "/tmp/" ++ filename
          let limit := max_mb * 1024 * 1024
          let wl := writeLoop limit resp.chunks 0 []
          match wl.1 with
          | Except.ok _ =>
            { metaRequest := some item_id, probes := pr.1
              contentGets := [signed_url]
              result := Except.ok (out, filename), file := some wl.2 }
          | Except.error e =>
            { metaRequest := some item_id, probes := pr.1
              contentGets := [signed_url]
              result := Except.error e, file := some wl.2 }

/-! ### The dispatch handler (`handle_message`, lines 155–197) -/

/-- The Telegram chat types relevant to the handler's filter. -/
inductive ChatType where
  | PRIVATE
  | GROUP
  | SUPERGROUP
  | CHANNEL
deriving DecidableEq, Repr

structure TgChat where
  type : ChatType
  id : ℤ
deriving DecidableEq, Repr

/-- `update.message`: its `text` may be `None` (line 175 substitutes `""`). -/
structure TgMessage where
  text : Option String
deriving DecidableEq, Repr

/-- The parts of a `telegram.Update` read by the handler. -/
structure TgUpdate where
  effective_chat : Option TgChat
  message : Option TgMessage
  effective_user : Option ℤ
deriving DecidableEq, Repr

/-- Everything observable that one `handle_message` call performs. -/
inductive Effect where
  /-- `update.message.reply_text(…)`. -/
  | replyText (msg : String)
  /-- `update.message.reply_document(…, filename, caption)`. -/
  | replyDocument (filename caption : String)
  /-- The metadata `GET` of `envato_get_item_uuid` for this item id. -/
  | netMetadata (item_id : String)
  /-- One `POST https://app.envato.com/download.data`. -/
  | netProbe (req : ProbeRequest)
  /-- The `GET` of a signed content URL. -/
  | netContent (url : String)
  /-- `os.remove(file_path)`. -/
  | fileRemove (path : String)
deriving DecidableEq, Repr

/-- The network effects of one `envato_download` call, in program order. -/
def dlEffects (d : DlOutcome) : List Effect :=
  (match d.metaRequest with
   | none => []
   | some i => [Effect.netMetadata i]) ++
    d.probes.map Effect.netProbe ++ d.contentGets.map Effect.netContent

/-- Placeholder for the message text of a transport exception raised by
`reply_document`; the handler only ever truncates and echoes it. -/
def sendFailureText : String := "send failed"

/-- The `str(e)` text of each embedded exception (lines 91, 133, 149 give
their texts verbatim; the two `raise_for_status` paths raise
`requests.HTTPError` whose text is synthesized by that library and is
abbreviated here). -/
def errText (e : DlError) (max_mb : ℕ) : String :=
  match e with
  | DlError.invalidUrl => "Could not extract Envato item id from URL"
  | DlError.identifierResolutionFailed => "HTTPError"
  | DlError.probeExhausted =>
    "Envato: could not obtain signed download URL (cookies expired?)"
  | DlError.transferFailed => "HTTPError"
  | DlError.sizeLimitExceeded =>
    "File too large (> " ++ toString max_mb ++ " MB)."

/-- Line 197: `f"Download failed: {str(e)[:200]}"`. -/
def failText (s : String) : String :=
  "Download failed: " ++ String.mk (s.toList.take 200)

/-- The result of handling one update: the effects performed in order, the
rate limiter table afterwards, and the contents of the destination file
afterwards (`none` when no file exists at the destination path). -/
structure HandleResult where
  effects : List Effect
  hits : RLKey → List ℤ
  file : Option (List ℕ)

/-- `handle_message` (lines 155–197) as a pure function.  `sendOk` models
whether the transport delivers `reply_document` without raising; text
replies and `os.remove` are modeled as reliable.  On a successful relay the
handler deletes the file; when `reply_document` raises, control jumps to
the `except` clause and no deletion happens. -/
def handle_message (window_sec : ℤ) (max_hits : ℕ) (allowed : List ℤ)
    (o : Oracle) (sendOk : Bool) (max_mb : ℕ) (hits : RLKey → List ℤ)
    (now : ℤ) (upd : TgUpdate) : HandleResult :=
  match upd.effective_chat, upd.message with
  | none, _ => { effects := [], hits := hits, file := none }
  | some _, none => { effects := [], hits := hits, file := none }
  | some chat, some msg =>
    if chat.type = ChatType.PRIVATE then
      { effects := [], hits := hits, file := none }
    else if chat.id ∈ allowed then
      let gate :=
        match upd.effective_user with
        | some uid => RateLimiter.allow window_sec max_hits hits chat.id uid now
        | none => (true, hits)
      if gate.1 = false then
        { effects := [Effect.replyText "Rate limit hit. Try again later."]
          hits := gate.2, file := none }
      else
        let text := msg.text.getD ""
        match envatoSearch text with
        | some (g0, _) =>
          let d := envato_download o g0 max_mb
          match d.result with
          | Except.ok (out, filename) =>
            if sendOk then
              { effects := dlEffects d ++
                  [Effect.replyDocument filename ("Envato: " ++ filename),
                   Effect.fileRemove out]
                hits := gate.2, file := none }
            else
              { effects := dlEffects d ++ [Effect.replyText (failText sendFailureText)]
                hits := gate.2, file := d.file }
          | Except.error e =>
            { effects := dlEffects d ++ [Effect.replyText (failText (errText e max_mb))]
              hits := gate.2, file := d.file }
        | none =>
          if freepikSearch text.toList then
            { effects := [Effect.replyText "Freepik support not wired yet (Envato is live)."]
              hits := gate.2, file := none }
          else { effects := [], hits := gate.2, file := none }
    else { effects := [], hits := hits, file := none }

/-! ### Spec-side predicates

These definitions transcribe the words of the specification (not the
source); they exist to be compared with the embedded code. -/

/-- A 2xx HTTP status, as the spec uses the term. -/
def is2xx (n : ℕ) : Prop := 200 ≤ n ∧ n ≤ 299

instance : DecidablePred is2xx := fun n => by unfold is2xx; infer_instance

/-- The last path segment of a path (the part after the final `/`). -/
def lastSegOf (path : List Char) : List Char :=
  (path.reverse.takeWhile (fun c => ¬ (c = '/'))).reverse

/-- The part of a segment after its final hyphen. -/
def afterFinalHyphen (seg : List Char) : List Char :=
  (seg.reverse.takeWhile (fun c => ¬ (c = '-'))).reverse

/-- Modelled from the spec: the claim's classifier condition evaluated at
one start position — scheme `http(s)`, optional `www.`, the fixed host,
then a path extending to the next whitespace character or the end of the
text, whose last segment has a final hyphen followed by at least six
alphanumeric characters (case-insensitive). -/
def claimSpecAt (s : List Char) : Bool :=
  match tryPrefixes s with
  | none => false
  | some (_, r) =>
    let path := r.takeWhile (fun c => ¬ (isPySpace c = true))
    let seg := lastSegOf path
    if seg.any (fun c => c = '-') then
      decide (6 ≤ runLen idChar (afterFinalHyphen seg))
    else false

/-- Modelled from the spec: the Link Classifier condition of the claim —
some substring of the text matches the fixed URL pattern with an
identifier of at least six alphanumerics after the final hyphen of the
last path segment. -/
def claimSpecScan : List Char → Bool
  | [] => false
  | c :: cs => claimSpecAt (c :: cs) || claimSpecScan cs

def claimSpecMatch (text : String) : Bool := claimSpecScan text.toList

/-- The corrected classifier condition, as a declarative decomposition:
the text contains (case-insensitively) scheme `http(s)`, `://`, optional
`www.`, the fixed host and `/`, then at least one character that is
neither whitespace nor `/`, a hyphen, and at least six alphanumeric
characters.  The identifier therefore sits in the *first* path segment
after *some* hyphen with six or more alphanumerics behind it. -/
def specAmendedMatch (text : String) : Prop :=
  ∃ pre u a id rest, text.toList = pre ++ u ++ a ++ '-' :: (id ++ rest) ∧
    (∃ p ∈ urlPrefixes, matchesCI p u = true) ∧
    a ≠ [] ∧ (∀ c ∈ a, segChar c = true) ∧
    6 ≤ id.length ∧ (∀ c ∈ id, idChar c = true)

deriving instance DecidableEq for Except

/-! ### Helper lemmas: characters -/

theorem char_toNat_ofNat (n : ℕ) (h : n < 55296) : (Char.ofNat n).toNat = n := by
  unfold Char.ofNat
  rw [dif_pos (Or.inl h)]
  rfl

/-- `str.upper()` sends every identifier character to an uppercase letter
or digit. -/
theorem upperA_idChar (c : Char) (h : idChar c = true) :
    isUpperAlnum (upperA c) = true := by
  unfold idChar at h
  unfold upperA isUpperAlnum
  simp only [decide_eq_true_eq] at h ⊢
  rcases h with h | h | h
  · rw [if_neg (by omega)]
    omega
  · rw [if_pos (by omega)]
    rw [char_toNat_ofNat _ (by omega)]
    omega
  · rw [if_neg (by omega)]
    omega

/-! ### Helper lemmas: lists -/

theorem drop_cons_of_get? {α : Type} : ∀ (s : List α) (i : ℕ) (c : α),
    s.get? i = some c → s.drop i = c :: s.drop (i + 1)
  | [], i, c, h => by simp [List.get?] at h
  | a :: s, 0, c, h => by
    simp only [List.get?] at h
    cases h
    rfl
  | a :: s, i + 1, c, h => by
    simp only [List.get?] at h
    simpa using drop_cons_of_get? s i c h

theorem get?_append_cons {α : Type} : ∀ (a : List α) (c : α) (w : List α),
    (a ++ c :: w).get? a.length = some c
  | [], _, _ => rfl
  | _ :: a, c, w => get?_append_cons a c w

theorem drop_append_cons {α : Type} : ∀ (a : List α) (c : α) (w : List α),
    (a ++ c :: w).drop (a.length + 1) = w
  | [], _, _ => rfl
  | _ :: a, c, w => drop_append_cons a c w

/-! ### Helper lemmas: `runLen` -/

theorem runLen_le_length (p : Char → Bool) : ∀ s : List Char, runLen p s ≤ s.length
  | [] => Nat.le_refl 0
  | c :: cs => by
    unfold runLen
    by_cases h : p c = true
    · rw [if_pos h]
      exact Nat.succ_le_succ (runLen_le_length p cs)
    · rw [if_neg h]
      exact Nat.zero_le _

theorem mem_take_runLen (p : Char → Bool) :
    ∀ (s : List Char) (j : ℕ), j ≤ runLen p s → ∀ c ∈ s.take j, p c = true
  | _, 0, _, c, hc => by simp at hc
  | [], j + 1, hj, c, hc => by simp at hc
  | a :: s, j + 1, hj, c, hc => by
    unfold runLen at hj
    by_cases h : p a = true
    · rw [if_pos h] at hj
      simp only [List.take, List.mem_cons] at hc
      rcases hc with rfl | hc
      · exact h
      · exact mem_take_runLen p s j (Nat.le_of_succ_le_succ hj) c hc
    · rw [if_neg h] at hj
      omega

theorem runLen_cons (p : Char → Bool) (c : Char) (cs : List Char) :
    runLen p (c :: cs) = if p c = true then runLen p cs + 1 else 0 := rfl

theorem runLen_ge_of_all (p : Char → Bool) :
    ∀ (a t : List Char), (∀ c ∈ a, p c = true) → a.length ≤ runLen p (a ++ t)
  | [], t, _ => Nat.zero_le _
  | x :: a, t, h => by
    rw [List.cons_append, runLen_cons, if_pos (h x (by simp))]
    exact Nat.succ_le_succ (runLen_ge_of_all p a t (fun c hc => h c (by simp [hc])))

theorem runLen_append_ge (p : Char → Bool) (a : List Char) (b : Char) (t : List Char)
    (ha : ∀ c ∈ a, p c = true) (hb : p b = true) :
    a.length + 1 ≤ runLen p (a ++ b :: t) := by
  have := runLen_ge_of_all p (a ++ [b]) t (by
    intro c hc
    rcases List.mem_append.1 hc with h | h
    · exact ha c h
    · rw [List.mem_singleton.1 h]
      exact hb)
  simpa using this

/-! ### Helper lemmas: literal consumption -/

theorem consumeCI_some_decomp :
    ∀ (p s r : List Char), consumeCI p s = some r →
      ∃ t, s = t ++ r ∧ matchesCI p t = true
  | [], s, r, h => by
    refine ⟨[], ?_, rfl⟩
    simpa [consumeCI] using (by simpa [consumeCI] using h : s = r)
  | _ :: _, [], r, h => by simp [consumeCI] at h
  | p :: ps, c :: cs, r, h => by
    unfold consumeCI at h
    by_cases hc : ciEq p c = true
    · rw [if_pos hc] at h
      obtain ⟨t, ht, hm⟩ := consumeCI_some_decomp ps cs r h
      exact ⟨c :: t, by simp [ht], by simp [matchesCI, hc, hm]⟩
    · rw [if_neg hc] at h
      exact absurd h (by simp)

theorem consumeCI_append :
    ∀ (p t r : List Char), matchesCI p t = true → consumeCI p (t ++ r) = some r
  | [], [], r, _ => rfl
  | [], _ :: _, r, h => by simp [matchesCI] at h
  | _ :: _, [], r, h => by simp [matchesCI] at h
  | p :: ps, c :: cs, r, h => by
    unfold matchesCI at h
    rw [Bool.and_eq_true] at h
    rw [List.cons_append]
    unfold consumeCI
    rw [if_pos h.1]
    exact consumeCI_append ps cs r h.2

theorem matchesCI_length :
    ∀ (p t : List Char), matchesCI p t = true → p.length = t.length
  | [], [], _ => rfl
  | [], _ :: _, h => by simp [matchesCI] at h
  | _ :: _, [], h => by simp [matchesCI] at h
  | p :: ps, c :: cs, h => by
    unfold matchesCI at h
    rw [Bool.and_eq_true] at h
    simpa using matchesCI_length ps cs h.2

theorem matchesCI_get? :
    ∀ (p t : List Char), matchesCI p t = true →
      ∀ i, (p.get? i).map lowerA = (t.get? i).map lowerA
  | [], [], _, i => rfl
  | [], _ :: _, h, _ => by simp [matchesCI] at h
  | _ :: _, [], h, _ => by simp [matchesCI] at h
  | p :: ps, c :: cs, h, i => by
    unfold matchesCI at h
    rw [Bool.and_eq_true] at h
    match i with
    | 0 =>
      have : lowerA p = lowerA c := by
        have := h.1
        unfold ciEq at this
        simpa using this
      simp [List.get?, this]
    | i + 1 => simpa [List.get?] using matchesCI_get? ps cs h.2 i

/-- After a successful consume, the pattern and input agree (up to case)
position by position inside the pattern. -/
theorem consumeCI_get? (p s r : List Char) (h : consumeCI p s = some r) :
    ∀ i, i < p.length → (p.get? i).map lowerA = (s.get? i).map lowerA := by
  obtain ⟨t, rfl, hm⟩ := consumeCI_some_decomp p s r h
  intro i hi
  rw [matchesCI_get? p t hm i]
  rw [List.get?_append (by rw [← matchesCI_length p t hm]; exact hi)]

/-- Any two distinct entries of `urlPrefixes` disagree (even up to case) at
some position inside both; checked by evaluation. -/
theorem urlPrefixes_conflict :
    ∀ p ∈ urlPrefixes, ∀ q ∈ urlPrefixes, p ≠ q →
      ((List.range 32).any fun i =>
        decide (i < p.length) && decide (i < q.length) &&
          decide ((p.get? i).map lowerA ≠ (q.get? i).map lowerA)) = true := by
  decide

/-- At most one prefix literal can match at a given position. -/
theorem consumeCI_unique (p q : List Char) (hp : p ∈ urlPrefixes)
    (hq : q ∈ urlPrefixes) (s r r' : List Char)
    (h1 : consumeCI p s = some r) (h2 : consumeCI q s = some r') : p = q := by
  by_contra hne
  have hc := urlPrefixes_conflict p hp q hq hne
  rw [List.any_eq_true] at hc
  obtain ⟨i, _, hi⟩ := hc
  simp only [Bool.and_eq_true, decide_eq_true_eq] at hi
  obtain ⟨⟨hip, hiq⟩, hne'⟩ := hi
  exact hne' ((consumeCI_get? p s r h1 i hip).trans (consumeCI_get? q s r' h2 i hiq).symm)

theorem tryPrefixesAux_some :
    ∀ (ps : List (List Char)) (s : List Char) (n : ℕ) (r : List Char),
      tryPrefixesAux ps s = some (n, r) →
        ∃ p ∈ ps, consumeCI p s = some r ∧ n = p.length
  | [], s, n, r, h => by simp [tryPrefixesAux] at h
  | p :: ps, s, n, r, h => by
    unfold tryPrefixesAux at h
    cases hc : consumeCI p s with
    | some r0 =>
      rw [hc] at h
      simp only [Option.some.injEq, Prod.mk.injEq] at h
      exact ⟨p, by simp, by rw [hc, h.2], h.1.symm⟩
    | none =>
      rw [hc] at h
      obtain ⟨q, hq, hcq, hn⟩ := tryPrefixesAux_some ps s n r h
      exact ⟨q, by simp [hq], hcq, hn⟩

/-- If some entry of `urlPrefixes` matches, `tryPrefixes` finds exactly that
entry. -/
theorem tryPrefixes_eq_of (p : List Char) (hp : p ∈ urlPrefixes) (s r : List Char)
    (h : consumeCI p s = some r) : tryPrefixes s = some (p.length, r) := by
  unfold tryPrefixes
  have main : ∀ ps : List (List Char), (∀ q ∈ ps, q ∈ urlPrefixes) → p ∈ ps →
      tryPrefixesAux ps s = some (p.length, r) := by
    intro ps
    induction ps with
    | nil => intro _ hmem; simp at hmem
    | cons q qs ih =>
      intro hsub hmem
      unfold tryPrefixesAux
      rcases List.mem_cons.1 hmem with rfl | hmem'
      · rw [h]
      · cases hc : consumeCI q s with
        | some r0 =>
          have : p = q := consumeCI_unique p q hp (hsub q (by simp)) s r r0 h hc
          rw [this] at h
          rw [h] at hc
          cases hc
          rw [this]
        | none => exact ih (fun x hx => hsub x (by simp [hx])) hmem'
  exact main urlPrefixes (fun q hq => hq) hp

/-! ### Helper lemmas: segment matching -/

theorem searchHyphenDown_some (s : List Char) :
    ∀ (i idx : ℕ) (g : List Char), searchHyphenDown s i = some (idx, g) →
      1 ≤ idx ∧ idx ≤ i ∧ groupAt s idx = some g
  | 0, idx, g, h => by simp [searchHyphenDown] at h
  | i + 1, idx, g, h => by
    unfold searchHyphenDown at h
    cases hg : groupAt s (i + 1) with
    | some g0 =>
      rw [hg] at h
      simp only [Option.some.injEq, Prod.mk.injEq] at h
      obtain ⟨rfl, rfl⟩ := h
      exact ⟨by omega, Nat.le_refl _, hg⟩
    | none =>
      rw [hg] at h
      obtain ⟨h1, h2, h3⟩ := searchHyphenDown_some s i idx g h
      exact ⟨h1, by omega, h3⟩

theorem searchHyphenDown_isSome (s : List Char) :
    ∀ (i idx : ℕ) (g : List Char), 1 ≤ idx → idx ≤ i → groupAt s idx = some g →
      (searchHyphenDown s i).isSome
  | 0, idx, g, h1, h2, _ => by omega
  | i + 1, idx, g, h1, h2, hg => by
    unfold searchHyphenDown
    cases hgi : groupAt s (i + 1) with
    | some g0 => simp
    | none =>
      have hne : idx ≠ i + 1 := by
        intro h
        rw [h, hgi] at hg
        cases hg
      exact searchHyphenDown_isSome s i idx g h1 (by omega) hg

theorem matchSeg_some_decomp (s : List Char) (idx : ℕ) (id : List Char)
    (h : matchSeg s = some (idx, id)) :
    ∃ a rest, s = a ++ '-' :: (id ++ rest) ∧ a ≠ [] ∧
      (∀ c ∈ a, segChar c = true) ∧ 6 ≤ id.length ∧
      (∀ c ∈ id, idChar c = true) ∧ a.length = idx := by
  unfold matchSeg at h
  cases hr : runLen segChar s with
  | zero => rw [hr] at h; cases h
  | succ r =>
    rw [hr] at h
    obtain ⟨h1, h2, hg⟩ := searchHyphenDown_some s r idx id h
    unfold groupAt at hg
    by_cases hdash : s.get? idx = some '-'
    · rw [if_pos hdash] at hg
      simp only at hg
      by_cases hk : 6 ≤ runLen idChar (s.drop (idx + 1))
      · rw [if_pos hk] at hg
        have hgid : (s.drop (idx + 1)).take (runLen idChar (s.drop (idx + 1))) = id :=
          Option.some.inj hg
        have hidlt : idx ≤ s.length := by
          have := runLen_le_length segChar s
          omega
        refine ⟨s.take idx, (s.drop (idx + 1)).drop (runLen idChar (s.drop (idx + 1))),
          ?_, ?_, ?_, ?_, ?_, ?_⟩
        · conv_lhs => rw [← List.take_append_drop idx s]
          rw [drop_cons_of_get? s idx '-' hdash]
          congr 1
          congr 1
          rw [← hgid]
          exact (List.take_append_drop _ _).symm
        · intro hnil
          have : (s.take idx).length = idx := by
            rw [List.length_take]
            omega
          rw [hnil] at this
          simp at this
          omega
        · exact mem_take_runLen segChar s idx (by omega)
        · rw [← hgid]
          rw [List.length_take]
          have := runLen_le_length idChar (s.drop (idx + 1))
          omega
        · rw [← hgid]
          exact mem_take_runLen idChar _ _ (Nat.le_refl _)
        · rw [List.length_take]
          omega
      · rw [if_neg hk] at hg
        cases hg
    · rw [if_neg hdash] at hg
      cases hg

theorem matchSeg_isSome_of_decomp (a id rest : List Char) (ha : a ≠ [])
    (hseg : ∀ c ∈ a, segChar c = true) (hlen : 6 ≤ id.length)
    (hid : ∀ c ∈ id, idChar c = true) :
    (matchSeg (a ++ '-' :: (id ++ rest))).isSome := by
  have hdash : segChar '-' = true := by decide
  have hrun : a.length + 1 ≤ runLen segChar (a ++ '-' :: (id ++ rest)) :=
    runLen_append_ge segChar a '-' (id ++ rest) hseg hdash
  unfold matchSeg
  cases hr : runLen segChar (a ++ '-' :: (id ++ rest)) with
  | zero => omega
  | succ r =>
    have hg : groupAt (a ++ '-' :: (id ++ rest)) a.length ≠ none := by
      unfold groupAt
      rw [if_pos (get?_append_cons a '-' (id ++ rest))]
      simp only
      rw [drop_append_cons a '-' (id ++ rest)]
      have : id.length ≤ runLen idChar (id ++ rest) := runLen_ge_of_all idChar id rest hid
      rw [if_pos (by omega)]
      simp
    cases hga : groupAt (a ++ '-' :: (id ++ rest)) a.length with
    | none => exact absurd hga hg
    | some g =>
      refine searchHyphenDown_isSome _ r a.length g ?_ ?_ hga
      · cases a with
        | nil => exact absurd rfl ha
        | cons x xs => simp
      · rw [hr] at hrun
        omega

/-! ### Helper lemmas: full-pattern matching and search -/

theorem matchAt_some_decomp (s g0 g1 : List Char) (h : matchAt s = some (g0, g1)) :
    ∃ u a rest, s = u ++ a ++ '-' :: (g1 ++ rest) ∧
      (∃ p ∈ urlPrefixes, matchesCI p u = true) ∧ a ≠ [] ∧
      (∀ c ∈ a, segChar c = true) ∧ 6 ≤ g1.length ∧
      (∀ c ∈ g1, idChar c = true) := by
  unfold matchAt at h
  split at h
  · cases h
  · rename_i n r htp
    split at h
    · cases h
    · rename_i idx id hms
      simp only [Option.some.injEq, Prod.mk.injEq] at h
      obtain ⟨-, rfl⟩ := h
      obtain ⟨p, hp, hcp, -⟩ := tryPrefixesAux_some urlPrefixes s n r htp
      obtain ⟨u, hu, hm⟩ := consumeCI_some_decomp p s r hcp
      obtain ⟨a, rest, hr, hane, hseg, hlen, hidc, -⟩ := matchSeg_some_decomp r idx id hms
      exact ⟨u, a, rest, by rw [hu, hr, List.append_assoc], ⟨p, hp, hm⟩,
        hane, hseg, hlen, hidc⟩

theorem matchAt_isSome_of_decomp (u a id rest : List Char)
    (hu : ∃ p ∈ urlPrefixes, matchesCI p u = true) (ha : a ≠ [])
    (hseg : ∀ c ∈ a, segChar c = true) (hlen : 6 ≤ id.length)
    (hid : ∀ c ∈ id, idChar c = true) :
    (matchAt (u ++ a ++ '-' :: (id ++ rest))).isSome := by
  obtain ⟨p, hp, hm⟩ := hu
  have hcp : consumeCI p (u ++ (a ++ '-' :: (id ++ rest))) =
      some (a ++ '-' :: (id ++ rest)) := consumeCI_append p u _ hm
  have htp := tryPrefixes_eq_of p hp _ _ hcp
  have hms := matchSeg_isSome_of_decomp a id rest ha hseg hlen hid
  rw [List.append_assoc]
  unfold matchAt
  rw [htp]
  simp only
  cases hm2 : matchSeg (a ++ '-' :: (id ++ rest)) with
  | none => rw [hm2] at hms; cases hms
  | some ig =>
    cases ig
    simp

theorem searchFrom_some_decomp :
    ∀ (s g0 g1 : List Char), searchFrom s = some (g0, g1) →
      ∃ i, matchAt (s.drop i) = some (g0, g1)
  | [], g0, g1, h => by cases h
  | c :: cs, g0, g1, h => by
    unfold searchFrom at h
    cases hma : matchAt (c :: cs) with
    | some m =>
      rw [hma] at h
      cases h
      exact ⟨0, hma⟩
    | none =>
      rw [hma] at h
      obtain ⟨i, hi⟩ := searchFrom_some_decomp cs g0 g1 h
      exact ⟨i + 1, by simpa using hi⟩

theorem searchFrom_isSome_of :
    ∀ (s : List Char) (i : ℕ), (matchAt (s.drop i)).isSome → (searchFrom s).isSome
  | [], i, h => by
    rw [List.drop_nil] at h
    exact absurd h (by decide)
  | c :: cs, 0, h => by
    rw [List.drop_zero] at h
    unfold searchFrom
    cases hma : matchAt (c :: cs) with
    | none => rw [hma] at h; cases h
    | some m => simp
  | c :: cs, i + 1, h => by
    rw [List.drop_succ_cons] at h
    unfold searchFrom
    cases hma : matchAt (c :: cs) with
    | none => exact searchFrom_isSome_of cs i h
    | some m => simp

/-! ### Helper lemmas: the probe loop -/

/-- When no candidate produces a signed URL (every response either has a
status other than 200 or scans to nothing), the loop visits every candidate
in order and returns no URL. -/
theorem probeLoop_exhaust (probe : String → HttpResponse) (item_uuid : String) :
    ∀ ts : List String,
      (∀ t ∈ ts, (probe t).status = 200 →
        findSignedUrl (probe t).body.toList = none) →
      probeLoop probe item_uuid ts = (ts.map (mkProbeRequest item_uuid), none)
  | [], _ => rfl
  | t :: ts, h => by
    unfold probeLoop
    by_cases h200 : (probe t).status = 200
    · rw [if_neg (by simpa using h200)]
      rw [h t (by simp) h200]
      rw [probeLoop_exhaust probe item_uuid ts (fun x hx => h x (by simp [hx]))]
      simp
    · rw [if_pos (by simpa using h200)]
      rw [probeLoop_exhaust probe item_uuid ts (fun x hx => h x (by simp [hx]))]
      simp

/-- When candidate number `i` (0-based) is the first whose response has
status 200 and scans to a signed URL, the loop stops there: it visits
exactly the first `i + 1` candidates in order and returns that URL. -/
theorem probeLoop_hit (probe : String → HttpResponse) (item_uuid : String) :
    ∀ (ts : List String) (i : ℕ) (t : String) (u : List Char),
      ts.get? i = some t →
      (∀ j tj, j < i → ts.get? j = some tj →
        (probe tj).status ≠ 200 ∨ findSignedUrl (probe tj).body.toList = none) →
      (probe t).status = 200 →
      findSignedUrl (probe t).body.toList = some u →
      probeLoop probe item_uuid ts =
        ((ts.take (i + 1)).map (mkProbeRequest item_uuid), some (String.mk u))
  | [], i, t, u, hget, _, _, _ => by simp [List.get?] at hget
  | t0 :: ts, 0, t, u, hget, _, h200, hfind => by
    simp only [List.get?] at hget
    cases hget
    unfold probeLoop
    rw [if_neg (by simpa using h200), hfind]
    simp
  | t0 :: ts, i + 1, t, u, hget, hbefore, h200, hfind => by
    simp only [List.get?] at hget
    have h0 := hbefore 0 t0 (by omega) rfl
    have hrec := probeLoop_hit probe item_uuid ts i t u hget
      (fun j tj hj hgj => hbefore (j + 1) tj (by omega) (by simpa using hgj))
      h200 hfind
    unfold probeLoop
    rcases h0 with h0 | h0
    · rw [if_pos (by simpa using h0), hrec]
      simp
    · by_cases hs : (probe t0).status = 200
      · rw [if_neg (by simpa using hs), h0, hrec]
        simp
      · rw [if_pos (by simpa using hs), hrec]
        simp

/-! ### Helper lemmas: the streaming write loop -/

/-- On success the file contents are exactly `total` bytes beyond the
starting state and never exceed the limit. -/
theorem writeLoop_ok (limit : ℕ) :
    ∀ (cs : List (List ℕ)) (total : ℕ) (written : List ℕ) (n : ℕ) (w : List ℕ),
      total = written.length → total ≤ limit →
      writeLoop limit cs total written = (Except.ok n, w) →
      w.length = n ∧ n ≤ limit
  | [], total, written, n, w, htw, hle, h => by
    unfold writeLoop at h
    simp only [Prod.mk.injEq, Except.ok.injEq] at h
    obtain ⟨rfl, rfl⟩ := h
    exact ⟨htw.symm, hle⟩
  | c :: cs, total, written, n, w, htw, hle, h => by
    unfold writeLoop at h
    by_cases hc : c.isEmpty = true
    · rw [if_pos hc] at h
      exact writeLoop_ok limit cs total written n w htw hle h
    · rw [if_neg hc] at h
      by_cases hbig : limit < total + c.length
      · rw [if_pos hbig] at h
        simp at h
      · rw [if_neg hbig] at h
        exact writeLoop_ok limit cs (total + c.length) (written ++ c) n w
          (by simp [htw]) (by omega) h

/-- Every intermediate file state recorded by `writeStates` stays within the
limit: the size check runs before each write. -/
theorem writeStates_bounded (limit : ℕ) :
    ∀ (cs : List (List ℕ)) (total : ℕ) (written : List ℕ),
      total = written.length →
      ∀ st ∈ writeStates limit cs total written, st.length ≤ limit
  | [], total, written, _, st, hst => by simp [writeStates] at hst
  | c :: cs, total, written, htw, st, hst => by
    unfold writeStates at hst
    by_cases hc : c.isEmpty = true
    · rw [if_pos hc] at hst
      exact writeStates_bounded limit cs total written htw st hst
    · rw [if_neg hc] at hst
      by_cases hbig : limit < total + c.length
      · rw [if_pos hbig] at hst
        simp at hst
      · rw [if_neg hbig] at hst
        rcases List.mem_cons.1 hst with rfl | hst'
        · rw [List.length_append, ← htw]
          omega
        · exact writeStates_bounded limit cs (total + c.length) (written ++ c)
            (by simp [htw]) st hst'

/-- When the source exceeds the limit, the loop fails, writing exactly the
chunks before the first offending one: there is an index `k` such that the
file holds the concatenation of the first `k` chunks, that much is within
the limit, and chunk `k` would push the total past the limit. -/
theorem writeLoop_err (limit : ℕ) :
    ∀ (cs : List (List ℕ)) (total : ℕ) (written : List ℕ),
      total = written.length → total ≤ limit →
      limit < total + (cs.map List.length).sum →
      ∃ k ck, cs.get? k = some ck ∧
        writeLoop limit cs total written =
          (Except.error DlError.sizeLimitExceeded, written ++ (cs.take k).flatten) ∧
        total + ((cs.take k).map List.length).sum ≤ limit ∧
        limit < total + ((cs.take k).map List.length).sum + ck.length
  | [], total, written, htw, hle, hbig => by
    simp at hbig
    omega
  | c :: cs, total, written, htw, hle, hbig => by
    by_cases hc : c.isEmpty = true
    · have hcnil : c = [] := List.isEmpty_iff.1 hc
      subst hcnil
      have hbig' : limit < total + (cs.map List.length).sum := by
        simpa using hbig
      obtain ⟨k, ck, hget, hrun, hin, hout⟩ :=
        writeLoop_err limit cs total written htw hle hbig'
      refine ⟨k + 1, ck, by simpa using hget, ?_, by simpa using hin, by simpa using hout⟩
      unfold writeLoop
      rw [if_pos hc]
      rw [hrun]
      simp
    · by_cases hover : limit < total + c.length
      · refine ⟨0, c, rfl, ?_, by simpa using hle, by simpa using hover⟩
        unfold writeLoop
        rw [if_neg hc, if_pos hover]
        simp
      · have hbig' : limit < (total + c.length) + (cs.map List.length).sum := by
          simp at hbig
          omega
        obtain ⟨k, ck, hget, hrun, hin, hout⟩ :=
          writeLoop_err limit cs (total + c.length) (written ++ c)
            (by simp [htw]) (by omega) hbig'
        refine ⟨k + 1, ck, by simpa using hget, ?_, ?_, ?_⟩
        · unfold writeLoop
          rw [if_neg hc, if_neg hover, hrun]
          simp
        · simp only [List.take_succ_cons, List.map_cons, List.sum_cons]
          omega
        · simp only [List.take_succ_cons, List.map_cons, List.sum_cons]
          omega

/-- The only error `envato_get_item_uuid` can raise is the resolution
failure. -/
theorem envato_get_item_uuid_error (r : MetaResponse) (e : DlError)
    (h : envato_get_item_uuid r = Except.error e) :
    e = DlError.identifierResolutionFailed := by
  unfold envato_get_item_uuid at h
  by_cases h4 : 400 ≤ r.status
  · rw [if_pos h4] at h
    exact (Except.error.inj h).symm
  · rw [if_neg h4] at h
    cases hit : r.itemUuid with
    | some u =>
      rw [hit] at h
      cases h
    | none =>
      rw [hit] at h
      exact (Except.error.inj h).symm

/-- The only error the write loop can raise is the size error, and even
then the file contents stay within the limit. -/
theorem writeLoop_error_shape (limit : ℕ) :
    ∀ (cs : List (List ℕ)) (total : ℕ) (written : List ℕ) (e : DlError) (w : List ℕ),
      total = written.length → total ≤ limit →
      writeLoop limit cs total written = (Except.error e, w) →
      e = DlError.sizeLimitExceeded ∧ w.length ≤ limit
  | [], total, written, e, w, _, _, h => by
    unfold writeLoop at h
    simp at h
  | c :: cs, total, written, e, w, htw, hle, h => by
    unfold writeLoop at h
    by_cases hc : c.isEmpty = true
    · rw [if_pos hc] at h
      exact writeLoop_error_shape limit cs total written e w htw hle h
    · rw [if_neg hc] at h
      by_cases hbig : limit < total + c.length
      · rw [if_pos hbig] at h
        simp only [Prod.mk.injEq, Except.error.injEq] at h
        obtain ⟨rfl, rfl⟩ := h
        exact ⟨rfl, by omega⟩
      · rw [if_neg hbig] at h
        exact writeLoop_error_shape limit cs (total + c.length) (written ++ c) e w
          (by simp [htw]) (by omega) h

/-- Case analysis of one `envato_download` call: every failure that occurs
before streaming leaves no file; a size failure leaves a partial file within
the ceiling; success leaves the complete file within the ceiling. -/
theorem dl_file_cases (o : Oracle) (item_url : String) (max_mb : ℕ) :
    (∃ e, (envato_download o item_url max_mb).result = Except.error e ∧
      e ≠ DlError.sizeLimitExceeded ∧
      (envato_download o item_url max_mb).file = none) ∨
    ((envato_download o item_url max_mb).result =
        Except.error DlError.sizeLimitExceeded ∧
      ∃ w, (envato_download o item_url max_mb).file = some w ∧
        w.length ≤ max_mb * 1024 * 1024) ∨
    (∃ out fn w, (envato_download o item_url max_mb).result = Except.ok (out, fn) ∧
      (envato_download o item_url max_mb).file = some w ∧
      w.length ≤ max_mb * 1024 * 1024) := by
  cases h1 : searchFrom item_url.data with
  | none =>
    left
    exact ⟨DlError.invalidUrl, by simp [envato_download, h1], by decide,
      by simp [envato_download, h1]⟩
  | some m =>
    obtain ⟨g0, g1⟩ := m
    cases h2 : envato_get_item_uuid o.meta with
    | error e =>
      left
      refine ⟨e, by simp [envato_download, h1, h2], ?_, by simp [envato_download, h1, h2]⟩
      rw [envato_get_item_uuid_error o.meta e h2]
      decide
    | ok uuid =>
      cases h3 : (probeLoop o.probe uuid candidate_types).2 with
      | none =>
        left
        exact ⟨DlError.probeExhausted, by simp [envato_download, h1, h2, h3], by decide,
          by simp [envato_download, h1, h2, h3]⟩
      | some su =>
        by_cases h4 : 400 ≤ (o.content su).status
        · left
          exact ⟨DlError.transferFailed, by simp [envato_download, h1, h2, h3, h4],
            by decide, by simp [envato_download, h1, h2, h3, h4]⟩
        · cases h5 : (writeLoop (max_mb * 1024 * 1024) (o.content su).chunks 0 []).1 with
          | ok n =>
            right; right
            have hfull : writeLoop (max_mb * 1024 * 1024) (o.content su).chunks 0 [] =
                (Except.ok n,
                  (writeLoop (max_mb * 1024 * 1024) (o.content su).chunks 0 []).2) := by
              rw [← h5]
            obtain ⟨hlen, hn⟩ :=
              writeLoop_ok (max_mb * 1024 * 1024) (o.content su).chunks 0 [] n _
                rfl (Nat.zero_le _) hfull
            refine ⟨"/tmp/" ++ ("envato-" ++ String.mk (g1.map upperA) ++ ".zip"),
              "envato-" ++ String.mk (g1.map upperA) ++ ".zip",
              (writeLoop (max_mb * 1024 * 1024) (o.content su).chunks 0 []).2,
              by simp [envato_download, h1, h2, h3, h4, h5],
              by simp [envato_download, h1, h2, h3, h4, h5], by omega⟩
          | error e =>
            right; left
            have hfull : writeLoop (max_mb * 1024 * 1024) (o.content su).chunks 0 [] =
                (Except.error e,
                  (writeLoop (max_mb * 1024 * 1024) (o.content su).chunks 0 []).2) := by
              rw [← h5]
            obtain ⟨rfl, hw⟩ :=
              writeLoop_error_shape (max_mb * 1024 * 1024) (o.content su).chunks 0 [] e _
                rfl (Nat.zero_le _) hfull
            exact ⟨by simp [envato_download, h1, h2, h3, h4, h5],
              (writeLoop (max_mb * 1024 * 1024) (o.content su).chunks 0 []).2,
              by simp [envato_download, h1, h2, h3, h4, h5], hw⟩

/-! ### Claim theorems -/

/-- C1: for every acquisition attempt in which the URL parses and the
metadata lookup succeeds but every probe candidate's response is either
non-2xx or contains no embedded signed content URL, `envato_download`
fails with the probe-exhausted error after issuing exactly one probe
request per candidate — 13 of them, in the fixed declared order, with no
candidate skipped — and the content download is never invoked.  A non-2xx
probe response leads to the next candidate, never to early termination. -/
theorem c1_probe_exhaustion (o : Oracle) (item_url : String) (max_mb : ℕ)
    (g0 g1 : List Char) (uuid : String)
    (hs : searchFrom item_url.toList = some (g0, g1))
    (hm : envato_get_item_uuid o.meta = Except.ok uuid)
    (hall : ∀ t ∈ candidate_types, ¬ is2xx (o.probe t).status ∨
      findSignedUrl (o.probe t).body.toList = none) :
    (envato_download o item_url max_mb).result = Except.error DlError.probeExhausted ∧
    (envato_download o item_url max_mb).probes =
      candidate_types.map (mkProbeRequest uuid) ∧
    (envato_download o item_url max_mb).probes.length = 13 ∧
    (envato_download o item_url max_mb).contentGets = [] ∧
    (envato_download o item_url max_mb).file = none := by
  have hall' : ∀ t ∈ candidate_types, (o.probe t).status = 200 →
      findSignedUrl (o.probe t).body.toList = none := by
    intro t ht h200
    rcases hall t ht with h | h
    · exact absurd (by rw [h200]; exact ⟨by omega, by omega⟩) h
    · exact h
  have hp := probeLoop_exhaust o.probe uuid candidate_types hall'
  have hs' : searchFrom item_url.data = some (g0, g1) := hs
  refine ⟨?_, ?_, ?_, ?_, ?_⟩ <;>
      simp [envato_download, hs', hm, hp] <;>
    simp [candidate_types]

set_option maxRecDepth 8000 in
theorem c1_probe_exhaustion_witness :
    searchFrom "https://elements.envato.com/item-ABCDEF".toList =
      some ("https://elements.envato.com/item-ABCDEF".toList, "ABCDEF".toList) ∧
    envato_get_item_uuid
      (MetaResponse.mk 200 (some "U1")) = Except.ok "U1" ∧
    (∀ t ∈ candidate_types,
      ¬ is2xx ((fun _ => HttpResponse.mk 404 "no") t).status ∨
      findSignedUrl ((fun _ => HttpResponse.mk 404 "no") t).body.toList = none) ∧
    (envato_download
      (Oracle.mk (MetaResponse.mk 200 (some "U1")) (fun _ => HttpResponse.mk 404 "no")
        (fun _ => ContentResponse.mk 200 []))
      "https://elements.envato.com/item-ABCDEF" 1).result =
        Except.error DlError.probeExhausted ∧
    (envato_download
      (Oracle.mk (MetaResponse.mk 200 (some "U1")) (fun _ => HttpResponse.mk 404 "no")
        (fun _ => ContentResponse.mk 200 []))
      "https://elements.envato.com/item-ABCDEF" 1).probes.length = 13 :=
  ⟨by decide, by decide, by decide,
   (c1_probe_exhaustion
     (Oracle.mk (MetaResponse.mk 200 (some "U1")) (fun _ => HttpResponse.mk 404 "no")
       (fun _ => ContentResponse.mk 200 []))
     "https://elements.envato.com/item-ABCDEF" 1
     "https://elements.envato.com/item-ABCDEF".toList "ABCDEF".toList "U1"
     (by decide) (by decide) (by decide)).1,
   (c1_probe_exhaustion
     (Oracle.mk (MetaResponse.mk 200 (some "U1")) (fun _ => HttpResponse.mk 404 "no")
       (fun _ => ContentResponse.mk 200 []))
     "https://elements.envato.com/item-ABCDEF" 1
     "https://elements.envato.com/item-ABCDEF".toList "ABCDEF".toList "U1"
     (by decide) (by decide) (by decide)).2.2.1⟩

/-- C2 (amended): when probe candidate number `i + 1` (1-based `k = i + 1`)
is the first whose response has status 200 — not merely 2xx — and contains
an embedded signed content URL, exactly `i + 1` probe requests are issued,
in order with no candidate skipped and none after it tried, and the signed
content download is invoked exactly once, with the URL extracted from that
response. -/
theorem c2_first_hit_stops (o : Oracle) (item_url : String) (max_mb : ℕ)
    (g0 g1 : List Char) (uuid t : String) (u : List Char) (i : ℕ)
    (hs : searchFrom item_url.toList = some (g0, g1))
    (hm : envato_get_item_uuid o.meta = Except.ok uuid)
    (hi : candidate_types.get? i = some t)
    (hbefore : ∀ j, j < i →
      (o.probe (candidate_types.getD j "")).status ≠ 200 ∨
      findSignedUrl (o.probe (candidate_types.getD j "")).body.toList = none)
    (hhit : (o.probe t).status = 200 ∧
      findSignedUrl (o.probe t).body.toList = some u) :
    (envato_download o item_url max_mb).probes =
      (candidate_types.take (i + 1)).map (mkProbeRequest uuid) ∧
    (envato_download o item_url max_mb).probes.length = i + 1 ∧
    (envato_download o item_url max_mb).contentGets = [String.mk u] := by
  have hbefore' : ∀ j tj, j < i → candidate_types.get? j = some tj →
      (o.probe tj).status ≠ 200 ∨ findSignedUrl (o.probe tj).body.toList = none := by
    intro j tj hj hget
    have htjd : candidate_types.getD j "" = tj := by
      unfold List.getD
      rw [hget]
      rfl
    rw [← htjd]
    exact hbefore j hj
  have hp := probeLoop_hit o.probe uuid candidate_types i t u hi hbefore' hhit.1 hhit.2
  have hlen : i + 1 ≤ candidate_types.length := by
    have := List.get?_eq_some.1 hi |>.1
    omega
  have hl : (List.map (mkProbeRequest uuid) (candidate_types.take (i + 1))).length
      = i + 1 := by
    rw [List.length_map, List.length_take]
    omega
  refine ⟨?_, ?_, ?_⟩
  · simp only [envato_download, hs, hm, hp]
    split
    · rfl
    · split <;> rfl
  · simp only [envato_download, hs, hm, hp]
    split
    · exact hl
    · split <;> exact hl
  · simp only [envato_download, hs, hm, hp]
    split
    · rfl
    · split <;> rfl

set_option maxRecDepth 8000 in
theorem c2_first_hit_stops_witness :
    candidate_types.get? 2 = some "graphics" ∧
    ((Oracle.mk (MetaResponse.mk 200 (some "U1"))
        (fun t => if t = "graphics"
          then HttpResponse.mk 200 "x \"https://dl.envatousercontent.com/file?sig=1\" y"
          else HttpResponse.mk 404 "")
        (fun _ => ContentResponse.mk 200 [[1, 2]])).probe "graphics").status = 200 ∧
    (envato_download
      (Oracle.mk (MetaResponse.mk 200 (some "U1"))
        (fun t => if t = "graphics"
          then HttpResponse.mk 200 "x \"https://dl.envatousercontent.com/file?sig=1\" y"
          else HttpResponse.mk 404 "")
        (fun _ => ContentResponse.mk 200 [[1, 2]]))
      "https://elements.envato.com/item-ABCDEF" 1).probes.length = 3 ∧
    (envato_download
      (Oracle.mk (MetaResponse.mk 200 (some "U1"))
        (fun t => if t = "graphics"
          then HttpResponse.mk 200 "x \"https://dl.envatousercontent.com/file?sig=1\" y"
          else HttpResponse.mk 404 "")
        (fun _ => ContentResponse.mk 200 [[1, 2]]))
      "https://elements.envato.com/item-ABCDEF" 1).contentGets =
        [String.mk "https://dl.envatousercontent.com/file?sig=1".toList] :=
  ⟨by decide, by decide,
   (c2_first_hit_stops
     (Oracle.mk (MetaResponse.mk 200 (some "U1"))
       (fun t => if t = "graphics"
         then HttpResponse.mk 200 "x \"https://dl.envatousercontent.com/file?sig=1\" y"
         else HttpResponse.mk 404 "")
       (fun _ => ContentResponse.mk 200 [[1, 2]]))
     "https://elements.envato.com/item-ABCDEF" 1
     "https://elements.envato.com/item-ABCDEF".toList "ABCDEF".toList "U1" "graphics"
     "https://dl.envatousercontent.com/file?sig=1".toList 2
     (by decide) (by decide) (by decide) (by decide) (by decide)).2.1,
   (c2_first_hit_stops
     (Oracle.mk (MetaResponse.mk 200 (some "U1"))
       (fun t => if t = "graphics"
         then HttpResponse.mk 200 "x \"https://dl.envatousercontent.com/file?sig=1\" y"
         else HttpResponse.mk 404 "")
       (fun _ => ContentResponse.mk 200 [[1, 2]]))
     "https://elements.envato.com/item-ABCDEF" 1
     "https://elements.envato.com/item-ABCDEF".toList "ABCDEF".toList "U1" "graphics"
     "https://dl.envatousercontent.com/file?sig=1".toList 2
     (by decide) (by decide) (by decide) (by decide) (by decide)).2.2⟩

set_option maxRecDepth 8000 in
/-- C2, counterexample to the claim as stated: candidate 1
("video-templates") answers with status 201 — a 2xx response — whose body
contains an embedded signed content URL, and every other candidate fails;
the claim predicts exactly one probe and one invocation of the streaming
download, but the code treats any status other than 200 as a miss, so all
13 candidates are probed, the download is never invoked, and the attempt
ends in probe exhaustion. -/
theorem c2_counterexample_2xx_not_200 :
    is2xx 201 ∧
    findSignedUrl
      ("x \"https://dl.envatousercontent.com/file?sig=1\" y").toList =
      some "https://dl.envatousercontent.com/file?sig=1".toList ∧
    candidate_types.get? 0 = some "video-templates" ∧
    (envato_download
      (Oracle.mk (MetaResponse.mk 200 (some "U1"))
        (fun t => if t = "video-templates"
          then HttpResponse.mk 201 "x \"https://dl.envatousercontent.com/file?sig=1\" y"
          else HttpResponse.mk 404 "")
        (fun _ => ContentResponse.mk 200 [[1, 2]]))
      "https://elements.envato.com/item-ABCDEF" 1).probes.length = 13 ∧
    (envato_download
      (Oracle.mk (MetaResponse.mk 200 (some "U1"))
        (fun t => if t = "video-templates"
          then HttpResponse.mk 201 "x \"https://dl.envatousercontent.com/file?sig=1\" y"
          else HttpResponse.mk 404 "")
        (fun _ => ContentResponse.mk 200 [[1, 2]]))
      "https://elements.envato.com/item-ABCDEF" 1).contentGets = [] ∧
    (envato_download
      (Oracle.mk (MetaResponse.mk 200 (some "U1"))
        (fun t => if t = "video-templates"
          then HttpResponse.mk 201 "x \"https://dl.envatousercontent.com/file?sig=1\" y"
          else HttpResponse.mk 404 "")
        (fun _ => ContentResponse.mk 200 [[1, 2]]))
      "https://elements.envato.com/item-ABCDEF" 1).result =
        Except.error DlError.probeExhausted := by
  refine ⟨by decide, by decide, by decide, ?_, ?_, ?_⟩ <;> decide

/-- C3 (amended): for every acquisition attempt in which the metadata
response has a 4xx/5xx status — the statuses on which `raise_for_status`
raises — or a body missing the `itemUuid` field, `envato_download` fails
with the resolution error and issues zero probe requests and zero content
downloads; no file is created.  (The claim's "non-2xx" is amended to
"status ≥ 400": a non-2xx, non-error status such as 301 whose body still
carries the field proceeds to the probe phase, see the counterexample.) -/
theorem c3_resolution_failure_no_probes (o : Oracle) (item_url : String)
    (max_mb : ℕ) (g0 g1 : List Char)
    (hs : searchFrom item_url.toList = some (g0, g1))
    (hres : 400 ≤ o.meta.status ∨ o.meta.itemUuid = none) :
    (envato_download o item_url max_mb).result =
      Except.error DlError.identifierResolutionFailed ∧
    (envato_download o item_url max_mb).probes = [] ∧
    (envato_download o item_url max_mb).contentGets = [] ∧
    (envato_download o item_url max_mb).file = none := by
  have hm : envato_get_item_uuid o.meta =
      Except.error DlError.identifierResolutionFailed := by
    unfold envato_get_item_uuid
    rcases hres with h | h
    · rw [if_pos h]
    · by_cases h4 : 400 ≤ o.meta.status
      · rw [if_pos h4]
      · rw [if_neg h4, h]
  refine ⟨?_, ?_, ?_, ?_⟩ <;> simp only [envato_download, hs, hm]

theorem c3_resolution_failure_no_probes_witness :
    searchFrom "https://elements.envato.com/item-ABCDEF".toList =
      some ("https://elements.envato.com/item-ABCDEF".toList, "ABCDEF".toList) ∧
    (400 ≤ (MetaResponse.mk 503 (some "U1")).status ∨
      (MetaResponse.mk 503 (some "U1")).itemUuid = none) ∧
    (envato_download
      (Oracle.mk (MetaResponse.mk 503 (some "U1")) (fun _ => HttpResponse.mk 404 "")
        (fun _ => ContentResponse.mk 200 []))
      "https://elements.envato.com/item-ABCDEF" 1).result =
        Except.error DlError.identifierResolutionFailed ∧
    (envato_download
      (Oracle.mk (MetaResponse.mk 503 (some "U1")) (fun _ => HttpResponse.mk 404 "")
        (fun _ => ContentResponse.mk 200 []))
      "https://elements.envato.com/item-ABCDEF" 1).probes = [] :=
  ⟨by decide, by decide,
   (c3_resolution_failure_no_probes
     (Oracle.mk (MetaResponse.mk 503 (some "U1")) (fun _ => HttpResponse.mk 404 "")
       (fun _ => ContentResponse.mk 200 []))
     "https://elements.envato.com/item-ABCDEF" 1
     "https://elements.envato.com/item-ABCDEF".toList "ABCDEF".toList
     (by decide) (by decide)).1,
   (c3_resolution_failure_no_probes
     (Oracle.mk (MetaResponse.mk 503 (some "U1")) (fun _ => HttpResponse.mk 404 "")
       (fun _ => ContentResponse.mk 200 []))
     "https://elements.envato.com/item-ABCDEF" 1
     "https://elements.envato.com/item-ABCDEF".toList "ABCDEF".toList
     (by decide) (by decide)).2.1⟩

set_option maxRecDepth 8000 in
/-- C3, counterexample to the claim as stated: a metadata response with the
non-2xx status 301 whose body still carries the `itemUuid` field does not
fail resolution — `raise_for_status` raises only on 4xx/5xx — so the
attempt proceeds to issue all 13 probe requests and ends in probe
exhaustion rather than `IdentifierResolutionFailed` with zero probes. -/
theorem c3_counterexample_non2xx_redirect :
    ¬ is2xx 301 ∧
    (envato_download
      (Oracle.mk (MetaResponse.mk 301 (some "U1")) (fun _ => HttpResponse.mk 404 "")
        (fun _ => ContentResponse.mk 200 []))
      "https://elements.envato.com/item-ABCDEF" 1).result =
        Except.error DlError.probeExhausted ∧
    (envato_download
      (Oracle.mk (MetaResponse.mk 301 (some "U1")) (fun _ => HttpResponse.mk 404 "")
        (fun _ => ContentResponse.mk 200 []))
      "https://elements.envato.com/item-ABCDEF" 1).probes.length = 13 := by
  refine ⟨by decide, ?_, ?_⟩ <;> decide

set_option maxRecDepth 8000 in
/-- C4: for every transfer whose source produces more than `limit` bytes,
the write loop aborts with the size error the moment the running total
would exceed the limit — before writing the offending chunk: the file is
left holding exactly the chunks before the first one that would overflow,
at most `limit` bytes, and strictly fewer bytes than the full source, so
no complete artifact remains.  In particular with `maxBytes = 100` and a
single 150-byte chunk the file is left empty. -/
theorem c4_size_limit_abort (limit : ℕ) (chunks : List (List ℕ))
    (hbig : limit < (chunks.map List.length).sum) :
    (writeLoop limit chunks 0 []).1 = Except.error DlError.sizeLimitExceeded ∧
    (writeLoop limit chunks 0 []).2.length ≤ limit ∧
    (writeLoop limit chunks 0 []).2.length < (chunks.map List.length).sum ∧
    (∃ k ck, chunks.get? k = some ck ∧
      (writeLoop limit chunks 0 []).2 = (chunks.take k).flatten ∧
      ((chunks.take k).map List.length).sum ≤ limit ∧
      limit < ((chunks.take k).map List.length).sum + ck.length) ∧
    writeLoop 100 [List.replicate 150 7] 0 [] =
      (Except.error DlError.sizeLimitExceeded, []) := by
  obtain ⟨k, ck, hget, hrun, hin, hout⟩ :=
    writeLoop_err limit chunks 0 [] rfl (Nat.zero_le _) (by omega)
  rw [List.nil_append] at hrun
  have hwlen : (writeLoop limit chunks 0 []).2.length =
      ((chunks.take k).map List.length).sum := by
    rw [hrun]
    simp
  refine ⟨by rw [hrun], ?_, ?_, ⟨k, ck, hget, by rw [hrun], by omega, by omega⟩, by decide⟩
  · omega
  · omega

set_option maxRecDepth 8000 in
theorem c4_size_limit_abort_witness :
    (100 < ((([List.replicate 150 7]).map List.length).sum) ∧
      (writeLoop 100 [List.replicate 150 7] 0 []).1 =
        Except.error DlError.sizeLimitExceeded ∧
      (writeLoop 100 [List.replicate 150 7] 0 []).2.length ≤ 100) ∧
    (writeLoop 100 [List.replicate 80 1, List.replicate 80 2] 0 []).2 =
      List.replicate 80 1 :=
  ⟨⟨by decide,
    (c4_size_limit_abort 100 [List.replicate 150 7] (by decide)).1,
    (c4_size_limit_abort 100 [List.replicate 150 7] (by decide)).2.1⟩,
   by decide⟩

/-- C5: for every successful download the file on disk is within the
configured ceiling `max_mb * 1024 * 1024`, and the bound is enforced
during streaming: the size check precedes each write, so every
intermediate file state recorded by `writeStates` — for any limit and any
chunk sequence — is within the limit. -/
theorem c5_size_ceiling_streaming (o : Oracle) (item_url : String)
    (max_mb : ℕ) (out fn : String)
    (hok : (envato_download o item_url max_mb).result = Except.ok (out, fn)) :
    (∃ w, (envato_download o item_url max_mb).file = some w ∧
      w.length ≤ max_mb * 1024 * 1024) ∧
    ∀ (limit : ℕ) (chunks : List (List ℕ)) (st : List ℕ),
      st ∈ writeStates limit chunks 0 [] → st.length ≤ limit := by
  constructor
  · rcases dl_file_cases o item_url max_mb with ⟨e, he, -, -⟩ | ⟨he, -⟩ | ⟨o1, f1, w, hr, hf, hw⟩
    · rw [hok] at he
      cases he
    · rw [hok] at he
      cases he
    · rw [hok] at hr
      have hpair : (out, fn) = (o1, f1) := Except.ok.inj hr
      obtain ⟨rfl, rfl⟩ : o1 = out ∧ f1 = fn :=
        ⟨(congrArg Prod.fst hpair).symm, (congrArg Prod.snd hpair).symm⟩
      exact ⟨w, hf, hw⟩
  · intro limit chunks st hst
    exact writeStates_bounded limit chunks 0 [] rfl st hst

set_option maxRecDepth 8000 in
theorem c5_size_ceiling_streaming_witness :
    (envato_download
      (Oracle.mk (MetaResponse.mk 200 (some "U1"))
        (fun _ => HttpResponse.mk 200 "x \"https://dl.envatousercontent.com/f\" y")
        (fun _ => ContentResponse.mk 200 [[1, 2, 3]]))
      "https://elements.envato.com/item-ABCDEF" 1).result =
      Except.ok ("/tmp/envato-ABCDEF.zip", "envato-ABCDEF.zip") ∧
    ∃ w, (envato_download
      (Oracle.mk (MetaResponse.mk 200 (some "U1"))
        (fun _ => HttpResponse.mk 200 "x \"https://dl.envatousercontent.com/f\" y")
        (fun _ => ContentResponse.mk 200 [[1, 2, 3]]))
      "https://elements.envato.com/item-ABCDEF" 1).file = some w ∧
      w.length ≤ 1 * 1024 * 1024 :=
  ⟨by decide,
   (c5_size_ceiling_streaming
     (Oracle.mk (MetaResponse.mk 200 (some "U1"))
       (fun _ => HttpResponse.mk 200 "x \"https://dl.envatousercontent.com/f\" y")
       (fun _ => ContentResponse.mk 200 [[1, 2, 3]]))
     "https://elements.envato.com/item-ABCDEF" 1
     "/tmp/envato-ABCDEF.zip" "envato-ABCDEF.zip" (by decide)).1⟩

/-- C6: every `allow` call first prunes the key's timestamps to those
within the trailing window (`now - t < W`); it grants exactly when fewer
than `N` remain, in which case the pruned list plus the current time is
stored; on denial only the pruned list is stored — the denied attempt is
not recorded — and no other key's state changes.  In particular with
`W = 2`, `N = 2`: two immediate calls on one key both allow, a third
immediate call denies, and a call more than `W` seconds later allows
again. -/
theorem c6_rate_limiter_behavior (W : ℤ) (N : ℕ) (hits : RLKey → List ℤ)
    (cid uid now : ℤ) :
    ((RateLimiter.allow W N hits cid uid now).1 = true ↔
      ((hits (cid, uid)).filter (fun t => now - t < W)).length < N) ∧
    (RateLimiter.allow W N hits cid uid now).2 (cid, uid) =
      (if ((hits (cid, uid)).filter (fun t => now - t < W)).length < N
        then (hits (cid, uid)).filter (fun t => now - t < W) ++ [now]
        else (hits (cid, uid)).filter (fun t => now - t < W)) ∧
    (∀ k, k ≠ (cid, uid) →
      (RateLimiter.allow W N hits cid uid now).2 k = hits k) ∧
    ((RateLimiter.allow 2 2 (fun _ => []) 1 2 0).1 = true ∧
      (RateLimiter.allow 2 2 (RateLimiter.allow 2 2 (fun _ => []) 1 2 0).2
        1 2 0).1 = true ∧
      (RateLimiter.allow 2 2 (RateLimiter.allow 2 2
        (RateLimiter.allow 2 2 (fun _ => []) 1 2 0).2 1 2 0).2 1 2 0).1 = false ∧
      (RateLimiter.allow 2 2 (RateLimiter.allow 2 2 (RateLimiter.allow 2 2
        (RateLimiter.allow 2 2 (fun _ => []) 1 2 0).2 1 2 0).2 1 2 0).2
        1 2 3).1 = true) := by
  unfold RateLimiter.allow
  by_cases h : N ≤ ((hits (cid, uid)).filter (fun t => now - t < W)).length
  · rw [if_pos h]
    refine ⟨by simpa using by omega, ?_, ?_, by decide⟩
    · rw [if_neg (show ¬ ((hits (cid, uid)).filter
        (fun t => now - t < W)).length < N by omega)]
      simp
    · intro k hk
      simp [hk]
  · rw [if_neg h]
    refine ⟨by simpa using by omega, ?_, ?_, by decide⟩
    · rw [if_pos (show ((hits (cid, uid)).filter
        (fun t => now - t < W)).length < N by omega)]
      simp
    · intro k hk
      simp [hk]

theorem c6_rate_limiter_behavior_witness :
    (RateLimiter.allow 2 2 (fun _ => []) 1 2 0).2 (9, 9) = [] :=
  (c6_rate_limiter_behavior 2 2 (fun _ => []) 1 2 0).2.2.1 (9, 9) (by decide)

/-- C10: starting from the empty table, after any sequence of `allow`
calls — allowed or denied, over any keys and times — every key's stored
timestamp list has at most `max_hits` entries, and all of its entries were
within the trailing window at the moment of the last call that touched
that key (witnessed by some time `tc`). -/
theorem c10_rate_state_invariant (W : ℤ) (N : ℕ) (h : RLKey → List ℤ)
    (hW : 0 < W) (hr : Reach W N h) :
    ∀ k, (h k).length ≤ N ∧ ∃ tc, ∀ x ∈ h k, tc - x < W := by
  induction hr with
  | init =>
    intro k
    exact ⟨by simp, 0, by simp⟩
  | step h0 cid uid now hr0 ih =>
    intro k
    unfold RateLimiter.allow
    by_cases hd : N ≤ ((h0 (cid, uid)).filter (fun t => now - t < W)).length
    · rw [if_pos hd]
      simp only
      by_cases hk : k = (cid, uid)
      · rw [if_pos hk]
        constructor
        · have hfl := List.length_filter_le (fun t => now - t < W) (h0 (cid, uid))
          have := (ih (cid, uid)).1
          omega
        · exact ⟨now, fun x hx => by simpa using (List.mem_filter.1 hx).2⟩
      · rw [if_neg hk]
        exact ih k
    · rw [if_neg hd]
      simp only
      by_cases hk : k = (cid, uid)
      · rw [if_pos hk]
        constructor
        · rw [List.length_append]
          simp only [List.length_singleton]
          omega
        · refine ⟨now, fun x hx => ?_⟩
          rcases List.mem_append.1 hx with hx | hx
          · simpa using (List.mem_filter.1 hx).2
          · rw [List.mem_singleton.1 hx]
            omega
      · rw [if_neg hk]
        exact ih k

theorem c10_rate_state_invariant_witness :
    ((RateLimiter.allow 2 2 (RateLimiter.allow 2 2 (fun _ => []) 1 2 5).2
      3 4 6).2 (1, 2)).length ≤ 2 ∧
    ∃ tc, ∀ x ∈ (RateLimiter.allow 2 2 (RateLimiter.allow 2 2 (fun _ => []) 1 2 5).2
      3 4 6).2 (1, 2), tc - x < 2 :=
  c10_rate_state_invariant 2 2 _ (by decide)
    (Reach.step _ 3 4 6 (Reach.step _ 1 2 5 Reach.init)) (1, 2)

/-- C7 (amended): for all text inputs the classifier returns a match if
and only if the text contains, case-insensitively, scheme `http(s)`,
`://`, optional `www.`, the fixed host, `/`, then at least one character
that is neither whitespace nor `/`, a hyphen, and at least six
alphanumeric characters — that is, the identifier sits in the *first*
path segment after *some* hyphen followed by six or more alphanumerics
(the engine commits to the rightmost such hyphen), not necessarily after
the final hyphen of the last path segment; and every extracted identifier
is normalized to uppercase alphanumerics regardless of the input's
case. -/
theorem c7_classifier_amended (text : String) :
    ((extractItemId text).isSome ↔ specAmendedMatch text) ∧
    (∀ id, extractItemId text = some id →
      ∀ c ∈ id.data, isUpperAlnum c = true) := by
  constructor
  · constructor
    · intro h
      unfold extractItemId at h
      cases hs : searchFrom text.toList with
      | none =>
        rw [hs] at h
        cases h
      | some m =>
        obtain ⟨g0, g1⟩ := m
        obtain ⟨i, hi⟩ := searchFrom_some_decomp text.toList g0 g1 hs
        obtain ⟨u, a, rest, hdec, hu, hane, hseg, hlen, hidc⟩ :=
          matchAt_some_decomp _ g0 g1 hi
        unfold specAmendedMatch
        refine ⟨text.toList.take i, u, a, g1, rest, ?_, hu, hane, hseg, hlen, hidc⟩
        conv_lhs => rw [← List.take_append_drop i text.toList]
        rw [hdec]
        simp [List.append_assoc]
    · intro h
      obtain ⟨pre, u, a, id, rest, hdec, hu, hane, hseg, hlen, hidc⟩ := h
      have hm : (matchAt (text.toList.drop pre.length)).isSome := by
        have hd : text.toList.drop pre.length = u ++ (a ++ '-' :: (id ++ rest)) := by
          rw [hdec]
          simp only [List.append_assoc]
          rw [List.drop_left]
        rw [hd, ← List.append_assoc]
        exact matchAt_isSome_of_decomp u a id rest hu hane hseg hlen hidc
      have hsf := searchFrom_isSome_of text.toList pre.length hm
      unfold extractItemId
      cases hx : searchFrom text.toList with
      | none =>
        rw [hx] at hsf
        cases hsf
      | some m => simp
  · intro id hid c hc
    unfold extractItemId at hid
    cases hs : searchFrom text.toList with
    | none =>
      rw [hs] at hid
      cases hid
    | some m =>
      rw [hs] at hid
      obtain ⟨g0, g1⟩ := m
      simp only [Option.map_some', Option.some.injEq] at hid
      obtain ⟨i, hi⟩ := searchFrom_some_decomp text.toList g0 g1 hs
      obtain ⟨u, a, rest, hdec2, hu2, hane2, hseg2, hlen2, hidc2⟩ :=
        matchAt_some_decomp _ g0 g1 hi
      rw [← hid] at hc
      have hc' : c ∈ g1.map upperA := hc
      obtain ⟨c0, hc0, rfl⟩ := List.mem_map.1 hc'
      exact upperA_idChar c0 (hidc2 c0 hc0)

theorem c7_classifier_amended_witness :
    extractItemId "check https://Elements.Envato.com/nice-thing-abc123xyz now" =
      some "ABC123XYZ" ∧
    ∀ c ∈ ("ABC123XYZ" : String).data, isUpperAlnum c = true :=
  ⟨by decide,
   (c7_classifier_amended
     "check https://Elements.Envato.com/nice-thing-abc123xyz now").2
     "ABC123XYZ" (by decide)⟩

/-- C7, counterexample to the claim as stated: the stated condition places
the identifier after the final hyphen of the last path segment, but the
pattern anchors it in the first path segment and accepts any hyphen
followed by six or more alphanumerics.  With
`https://elements.envato.com/fonts/kit-ABCDEF` the last segment satisfies
the stated condition yet the classifier returns no match, and with
`https://elements.envato.com/kit-ABCDEF-v2` the final hyphen is followed
by only `v2` — the stated condition fails — yet the classifier extracts
`ABCDEF`. -/
theorem c7_counterexample_path_segment :
    claimSpecMatch "https://elements.envato.com/fonts/kit-ABCDEF" = true ∧
    extractItemId "https://elements.envato.com/fonts/kit-ABCDEF" = none ∧
    claimSpecMatch "https://elements.envato.com/kit-ABCDEF-v2" = false ∧
    extractItemId "https://elements.envato.com/kit-ABCDEF-v2" = some "ABCDEF" := by
  refine ⟨?_, ?_, ?_, ?_⟩ <;> decide

/-- C8 (amended): for a triggered acquisition (group chat in the
allow-list, rate gate passed, link recognized): when the download
succeeds and the relay succeeds, the local file is deleted — an
`os.remove` effect is issued and no file remains; when the download fails
before streaming begins (bad URL, resolution failure, probe exhaustion,
or content-request failure) no file was ever created.  However, cleanup
is not guaranteed on every outcome: on a size-limit failure a partial
file of at most the ceiling remains at the destination path, and on a
relay failure the complete downloaded file remains. -/
theorem c8_cleanup_amended (W : ℤ) (N : ℕ) (allowed : List ℤ) (o : Oracle)
    (sendOk : Bool) (max_mb : ℕ) (hits : RLKey → List ℤ) (now : ℤ)
    (upd : TgUpdate) (chat : TgChat) (msg : TgMessage) (g0 g1 : String)
    (hchat : upd.effective_chat = some chat) (hmsg : upd.message = some msg)
    (hpriv : chat.type ≠ ChatType.PRIVATE) (hmem : chat.id ∈ allowed)
    (hgate : (match upd.effective_user with
      | some uid => RateLimiter.allow W N hits chat.id uid now
      | none => (true, hits)).1 = true)
    (hsearch : envatoSearch (msg.text.getD "") = some (g0, g1)) :
    (∀ out fn, (envato_download o g0 max_mb).result = Except.ok (out, fn) →
      sendOk = true →
      (handle_message W N allowed o sendOk max_mb hits now upd).file = none ∧
      Effect.fileRemove out ∈
        (handle_message W N allowed o sendOk max_mb hits now upd).effects) ∧
    (∀ e, (envato_download o g0 max_mb).result = Except.error e →
      e ≠ DlError.sizeLimitExceeded →
      (handle_message W N allowed o sendOk max_mb hits now upd).file = none) ∧
    ((envato_download o g0 max_mb).result =
        Except.error DlError.sizeLimitExceeded →
      ∃ w, (handle_message W N allowed o sendOk max_mb hits now upd).file = some w ∧
        w.length ≤ max_mb * 1024 * 1024) ∧
    (∀ out fn, (envato_download o g0 max_mb).result = Except.ok (out, fn) →
      sendOk = false →
      (handle_message W N allowed o sendOk max_mb hits now upd).file =
        (envato_download o g0 max_mb).file ∧
      (envato_download o g0 max_mb).file ≠ none) := by
  refine ⟨?_, ?_, ?_, ?_⟩
  · intro out fn hres hsend
    subst hsend
    constructor <;>
      simp [handle_message, hchat, hmsg, hpriv, hmem, hgate, hsearch, hres]
  · intro e hres hne
    rcases dl_file_cases o g0 max_mb with ⟨e', he', -, hf⟩ | ⟨he', -⟩ | ⟨o1, f1, w, hr', -, -⟩
    · simp [handle_message, hchat, hmsg, hpriv, hmem, hgate, hsearch, hres, hf]
    · rw [hres] at he'
      exact absurd (Except.error.inj he') hne
    · rw [hres] at hr'
      cases hr'
  · intro hres
    rcases dl_file_cases o g0 max_mb with ⟨e', he', hne', -⟩ | ⟨-, w, hf, hw⟩ | ⟨o1, f1, w, hr', -, -⟩
    · rw [hres] at he'
      exact absurd (Except.error.inj he').symm hne'
    · refine ⟨w, ?_, hw⟩
      simp [handle_message, hchat, hmsg, hpriv, hmem, hgate, hsearch, hres, hf]
    · rw [hres] at hr'
      cases hr'
  · intro out fn hres hsend
    subst hsend
    constructor
    · simp [handle_message, hchat, hmsg, hpriv, hmem, hgate, hsearch, hres]
    · rcases dl_file_cases o g0 max_mb with ⟨e', he', -, -⟩ | ⟨he', -⟩ | ⟨o1, f1, w, hr', hf, -⟩
      · rw [hres] at he'
        cases he'
      · rw [hres] at he'
        cases he'
      · rw [hf]
        simp

set_option maxRecDepth 8000 in
theorem c8_cleanup_amended_witness :
    (handle_message 2 2 [5]
      (Oracle.mk (MetaResponse.mk 200 (some "U1"))
        (fun _ => HttpResponse.mk 200 "x \"https://dl.envatousercontent.com/f\" y")
        (fun _ => ContentResponse.mk 200 [[1, 2, 3]]))
      true 1 (fun _ => []) 0
      (TgUpdate.mk (some (TgChat.mk ChatType.GROUP 5))
        (some (TgMessage.mk (some "https://elements.envato.com/item-ABCDEF")))
        none)).file = none ∧
    Effect.fileRemove "/tmp/envato-ABCDEF.zip" ∈
      (handle_message 2 2 [5]
        (Oracle.mk (MetaResponse.mk 200 (some "U1"))
          (fun _ => HttpResponse.mk 200 "x \"https://dl.envatousercontent.com/f\" y")
          (fun _ => ContentResponse.mk 200 [[1, 2, 3]]))
        true 1 (fun _ => []) 0
        (TgUpdate.mk (some (TgChat.mk ChatType.GROUP 5))
          (some (TgMessage.mk (some "https://elements.envato.com/item-ABCDEF")))
          none)).effects :=
  (c8_cleanup_amended 2 2 [5]
    (Oracle.mk (MetaResponse.mk 200 (some "U1"))
      (fun _ => HttpResponse.mk 200 "x \"https://dl.envatousercontent.com/f\" y")
      (fun _ => ContentResponse.mk 200 [[1, 2, 3]]))
    true 1 (fun _ => []) 0
    (TgUpdate.mk (some (TgChat.mk ChatType.GROUP 5))
      (some (TgMessage.mk (some "https://elements.envato.com/item-ABCDEF")))
      none)
    (TgChat.mk ChatType.GROUP 5)
    (TgMessage.mk (some "https://elements.envato.com/item-ABCDEF"))
    "https://elements.envato.com/item-ABCDEF" "ABCDEF"
    rfl rfl (by decide) (by decide) rfl (by decide)).1
    "/tmp/envato-ABCDEF.zip" "envato-ABCDEF.zip" (by decide) rfl

set_option maxRecDepth 8000 in
/-- C8, counterexample to the claim as stated: a triggered acquisition
whose download succeeds but whose relay (`reply_document`) raises leaves
the complete downloaded file on local storage — the handler's `except`
path sends the error text and never reaches `os.remove`.  The run below
performed the acquisition (a content download effect is present) and
finished handling the message, yet the file remains. -/
theorem c8_counterexample_file_remains :
    (handle_message 2 2 [5]
      (Oracle.mk (MetaResponse.mk 200 (some "U1"))
        (fun _ => HttpResponse.mk 200 "x \"https://dl.envatousercontent.com/f\" y")
        (fun _ => ContentResponse.mk 200 [[1, 2, 3]]))
      false 1 (fun _ => []) 0
      (TgUpdate.mk (some (TgChat.mk ChatType.GROUP 5))
        (some (TgMessage.mk (some "https://elements.envato.com/item-ABCDEF")))
        none)).file = some [1, 2, 3] ∧
    Effect.netContent "https://dl.envatousercontent.com/f" ∈
      (handle_message 2 2 [5]
        (Oracle.mk (MetaResponse.mk 200 (some "U1"))
          (fun _ => HttpResponse.mk 200 "x \"https://dl.envatousercontent.com/f\" y")
          (fun _ => ContentResponse.mk 200 [[1, 2, 3]]))
        false 1 (fun _ => []) 0
        (TgUpdate.mk (some (TgChat.mk ChatType.GROUP 5))
          (some (TgMessage.mk (some "https://elements.envato.com/item-ABCDEF")))
          none)).effects := by
  refine ⟨?_, ?_⟩ <;> decide

/-- C9: for every inbound update whose chat kind is private/direct — even
one whose text contains a valid marketplace link — the handler performs
no effect whatsoever: no metadata lookup, no probe, no content download,
no reply, no file operation; the rate-limiter state is untouched and no
file exists at the destination afterwards. -/
theorem c9_private_chat_inert (W : ℤ) (N : ℕ) (allowed : List ℤ) (o : Oracle)
    (sendOk : Bool) (max_mb : ℕ) (hits : RLKey → List ℤ) (now : ℤ)
    (upd : TgUpdate) (chat : TgChat) (msg : TgMessage)
    (hchat : upd.effective_chat = some chat) (hmsg : upd.message = some msg)
    (hpriv : chat.type = ChatType.PRIVATE)
    (hlink : (envatoSearch (msg.text.getD "")).isSome) :
    (handle_message W N allowed o sendOk max_mb hits now upd).effects = [] ∧
    (∀ k, (handle_message W N allowed o sendOk max_mb hits now upd).hits k =
      hits k) ∧
    (handle_message W N allowed o sendOk max_mb hits now upd).file = none := by
  refine ⟨?_, fun k => ?_, ?_⟩ <;>
    simp [handle_message, hchat, hmsg, hpriv]

set_option maxRecDepth 8000 in
theorem c9_private_chat_inert_witness :
    (envatoSearch "https://elements.envato.com/item-ABCDEF").isSome = true ∧
    (handle_message 2 2 [5]
      (Oracle.mk (MetaResponse.mk 200 (some "U1"))
        (fun _ => HttpResponse.mk 200 "x \"https://dl.envatousercontent.com/f\" y")
        (fun _ => ContentResponse.mk 200 [[1, 2, 3]]))
      true 1 (fun _ => []) 0
      (TgUpdate.mk (some (TgChat.mk ChatType.PRIVATE 5))
        (some (TgMessage.mk (some "https://elements.envato.com/item-ABCDEF")))
        (some 7))).effects = [] ∧
    (handle_message 2 2 [5]
      (Oracle.mk (MetaResponse.mk 200 (some "U1"))
        (fun _ => HttpResponse.mk 200 "x \"https://dl.envatousercontent.com/f\" y")
        (fun _ => ContentResponse.mk 200 [[1, 2, 3]]))
      true 1 (fun _ => []) 0
      (TgUpdate.mk (some (TgChat.mk ChatType.PRIVATE 5))
        (some (TgMessage.mk (some "https://elements.envato.com/item-ABCDEF")))
        (some 7))).file = none :=
  ⟨by decide,
   (c9_private_chat_inert 2 2 [5]
     (Oracle.mk (MetaResponse.mk 200 (some "U1"))
       (fun _ => HttpResponse.mk 200 "x \"https://dl.envatousercontent.com/f\" y")
       (fun _ => ContentResponse.mk 200 [[1, 2, 3]]))
     true 1 (fun _ => []) 0
     (TgUpdate.mk (some (TgChat.mk ChatType.PRIVATE 5))
       (some (TgMessage.mk (some "https://elements.envato.com/item-ABCDEF")))
       (some 7))
     (TgChat.mk ChatType.PRIVATE 5)
     (TgMessage.mk (some "https://elements.envato.com/item-ABCDEF"))
     rfl rfl rfl (by decide)).1,
   (c9_private_chat_inert 2 2 [5]
     (Oracle.mk (MetaResponse.mk 200 (some "U1"))
       (fun _ => HttpResponse.mk 200 "x \"https://dl.envatousercontent.com/f\" y")
       (fun _ => ContentResponse.mk 200 [[1, 2, 3]]))
     true 1 (fun _ => []) 0
     (TgUpdate.mk (some (TgChat.mk ChatType.PRIVATE 5))
       (some (TgMessage.mk (some "https://elements.envato.com/item-ABCDEF")))
       (some 7))
     (TgChat.mk ChatType.PRIVATE 5)
     (TgMessage.mk (some "https://elements.envato.com/item-ABCDEF"))
     rfl rfl rfl (by decide)).2.2⟩
